import Mathlib

/-!
Shallow embedding of the spotify-python playlist utilities
(`spotify.py`, `analyzer.py`, `clean.py`, `remove.py`).

Remote calls are modelled as explicit oracles: a fetch of a paginated
collection is a pure function of the offset over a flat list of items, and a
fallible write is a function returning `Except`.  Retry loops, pagination
loops and batch loops are translated to fuel-indexed or structurally
recursive Lean functions that mirror the Python control flow statement by
statement.  Python strings are Lean `String`s; `str.lower` is mapped over
`Char.toLower` (ASCII, which covers every input appearing in the spec).
-/

namespace SpotifyPy

/-- Value of `self.RATE_LIMIT_DELAY` in all four modules: the default wait
when a 429 response carries no usable Retry-After suggestion, and the fixed
inter-batch pacing delay. -/
def RATE_LIMIT_DELAY : Nat := 1

/-- Outcome of one invocation of a remote call inside a retry loop:
success with a value, a `SpotifyException` with `http_status == 429`
carrying an optional Retry-After header, a `SpotifyException` with some
other status, or a non-Spotify exception. -/
inductive Outcome (α : Type) where
  | success (a : α)
  | rateLimited (retryAfter : Option Nat)
  | apiError
  | otherError
  deriving DecidableEq, Repr

/-- Core of the retry loops `_process_track_with_retry` / `_add_batch_with_retry`
combined with `_handle_rate_limit` (spotify.py lines 83-112, 133-149).
`op n` is the outcome of the remote call on its `n`-th invocation.  The
second argument counts invocations already made; the third is the remaining
loop budget `max_retries - retry_count`.  Returns the successful value (if
any), the list of sleep durations performed (each the Retry-After value or
the `RATE_LIMIT_DELAY` default of 1, per `_handle_rate_limit`), and the
number of invocations of the operation.  A non-429 `SpotifyException` sets
`retry_count = max_retries` forcing loop exit; any other exception breaks:
both abandon after the current invocation. -/
def retryGo {α : Type} (op : Nat → Outcome α) (attempt : Nat) :
    Nat → Option α × List Nat × Nat
  | 0 => (none, [], 0)
  | remaining + 1 =>
    match op attempt with
    | .success a => (some a, [], 1)
    | .rateLimited ra =>
      let w := ra.getD RATE_LIMIT_DELAY
      let r := retryGo op (attempt + 1) remaining
      (r.1, w :: r.2.1, r.2.2 + 1)
    | .apiError => (none, [], 1)
    | .otherError => (none, [], 1)

/-- The retry wrapper: `retry_count = 0; while retry_count < max_retries: ...`
with `max_retries` as the bound (3 at both call sites). -/
def retryRun {α : Type} (op : Nat → Outcome α) (maxRetries : Nat) :
    Option α × List Nat × Nat :=
  retryGo op 0 maxRetries

/-- Fake paginated source used by the pagination claims: the remote
collection is a flat list and a fetch at `offset` returns the next
`pageSize` items, `(tracks.drop offset).take pageSize`, with the reported
`total` being `tracks.length`. -/
def fetchPage {α : Type} (tracks : List α) (pageSize offset : Nat) : List α :=
  (tracks.drop offset).take pageSize

/-- Pagination loop of `SpotifyAnalyzer.get_playlist_tracks` (analyzer.py
lines 38-52): fetch a page; break on an empty page; otherwise extend the
accumulator, advance `offset` by the page length, and break once
`offset >= total`.  Fuel-indexed; `none` means the fuel ran out before the
loop broke.  Returns the accumulated items and the number of fetch calls. -/
def analyzerPaginateGo {α : Type} (tracks : List α) (pageSize : Nat) :
    Nat → Nat → List α → Nat → Option (List α × Nat)
  | 0, _, _, _ => none
  | fuel + 1, offset, acc, calls =>
    let items := fetchPage tracks pageSize offset
    if items.isEmpty then some (acc, calls + 1)
    else if tracks.length ≤ offset + items.length then some (acc ++ items, calls + 1)
    else analyzerPaginateGo tracks pageSize fuel (offset + items.length) (acc ++ items) (calls + 1)

/-- `SpotifyAnalyzer.get_playlist_tracks` against the fake source, starting
from `offset = 0` with an empty accumulator. -/
def analyzerPaginate {α : Type} (tracks : List α) (pageSize fuel : Nat) :
    Option (List α × Nat) :=
  analyzerPaginateGo tracks pageSize fuel 0 [] 0

/-- Pagination loop of `SpotifyPlaylistCleaner.get_playlist_tracks`
(clean.py lines 44-52) and `SpotifyTrackRemover.get_playlist_tracks`
(remove.py lines 44-49): fetch a page, extend the accumulator, break when
the page holds fewer than `pageSize` items (the literal 100 in the source),
otherwise advance `offset` by `pageSize`. -/
def fixedPaginateGo {α : Type} (tracks : List α) (pageSize : Nat) :
    Nat → Nat → List α → Nat → Option (List α × Nat)
  | 0, _, _, _ => none
  | fuel + 1, offset, acc, calls =>
    let items := fetchPage tracks pageSize offset
    if items.length < pageSize then some (acc ++ items, calls + 1)
    else fixedPaginateGo tracks pageSize fuel (offset + pageSize) (acc ++ items) (calls + 1)

/-- The clean.py/remove.py paginator from `offset = 0`. -/
def fixedPaginate {α : Type} (tracks : List α) (pageSize fuel : Nat) :
    Option (List α × Nat) :=
  fixedPaginateGo tracks pageSize fuel 0 [] 0

/-- Ceiling division, the `(len + B - 1) // B` idiom used for
`total_batches` in spotify.py line 153 and analyzer.py line 91. -/
def ceilDiv (a b : Nat) : Nat := (a + b - 1) / b

/-- Batching core: the loop `for i in range(0, len(l), B): batch = l[i:i+B]`
(spotify.py lines 156-157, analyzer.py lines 88-89, clean.py line 72,
remove.py line 65) emits the contiguous slices `l.take B`, then the slices
of `l.drop B`, and so on.  Fuel-indexed; the fuel `l.length` always
suffices when `B > 0`. -/
def batchesGo {α : Type} (B : Nat) : Nat → List α → List (List α)
  | _, [] => []
  | 0, _ :: _ => []
  | fuel + 1, x :: xs => (x :: xs).take B :: batchesGo B fuel ((x :: xs).drop B)

/-- The batcher: all slices `l[i:i+B]` for `i in range(0, len(l), B)`. -/
def batches {α : Type} (l : List α) (B : Nat) : List (List α) :=
  batchesGo B l.length l

/-- Batch-removal loop of `remove_duplicate_tracks` (clean.py lines 72-75):
each batch is passed to the remote removal call with no enclosing
`try/except`, so the first failing call propagates out of the loop.
Returns the number of removal calls attempted and the propagated error, if
any.  The second argument accumulates the call count. -/
def cleanRemoveBatchesGo {ε : Type} (removeCall : List String → Except ε Unit) :
    List (List String) → Nat → Nat × Option ε
  | [], n => (n, none)
  | b :: rest, n =>
    match removeCall b with
    | .ok _ => cleanRemoveBatchesGo removeCall rest (n + 1)
    | .error e => (n + 1, some e)

/-- Batch-removal loop of `remove_tracks_from_playlist` (remove.py lines
65-72): each removal call sits inside `try/except`, so a failing batch is
logged and the loop continues with the next batch.  Returns the number of
removal calls attempted and the errors encountered, in order. -/
def removeTracksBatchesGo {ε : Type} (removeCall : List String → Except ε Unit) :
    List (List String) → Nat → Nat × List ε
  | [], n => (n, [])
  | b :: rest, n =>
    match removeCall b with
    | .ok _ => removeTracksBatchesGo removeCall rest (n + 1)
    | .error e =>
      let r := removeTracksBatchesGo removeCall rest (n + 1)
      (r.1, e :: r.2)

/-- Duplicate scan of `remove_duplicate_tracks` (clean.py lines 58-65):
walk the `(id, uri)` pairs in order with a `seen` set (modelled as the list
of ids inserted so far); a pair whose id is already in `seen` contributes
its uri to `duplicates`, otherwise its id is added to `seen`. -/
def dedupGo : List (String × String) → List String → List String
  | [], _ => []
  | (tid, uri) :: rest, seen =>
    if seen.contains tid then uri :: dedupGo rest seen
    else dedupGo rest (tid :: seen)

/-- The uris collected for removal by `remove_duplicate_tracks`. -/
def findDuplicates (tracks : List (String × String)) : List String :=
  dedupGo tracks []

/-- Modelled from the spec's words ("scan in order, keep the first
occurrence of each unique id, collect every subsequent repeat's uri"): an
element is a repeat exactly when its id occurs among the ids of the
elements strictly before it, here threaded as the `prior` list, which
receives every id regardless of novelty. -/
def specDupGo : List (String × String) → List String → List String
  | [], _ => []
  | (tid, uri) :: rest, prior =>
    if prior.contains tid then uri :: specDupGo rest (prior ++ [tid])
    else specDupGo rest (prior ++ [tid])

/-- The spec's removal list: uris of every element with an earlier
occurrence of the same id, in scan order. -/
def specDuplicates (tracks : List (String × String)) : List String :=
  specDupGo tracks []

/-- `remove_duplicate_tracks` (clean.py lines 55-77): collect duplicate
uris; if there are none, report and return without any removal call;
otherwise remove them in batches of 100 through the uncaught loop.
Returns the number of removal calls attempted and the propagated error, if
any. -/
def remove_duplicate_tracks (removeCall : List String → Except String Unit)
    (tracks : List (String × String)) : Nat × Option String :=
  let duplicates := findDuplicates tracks
  if duplicates.isEmpty then (0, none)
  else cleanRemoveBatchesGo removeCall (batches duplicates 100) 0

/-- Selection step of `remove_tracks_from_playlist` (remove.py lines
54-57): keep the caller-supplied ids that are members of the current
playlist's id set, in the caller's order, and convert each survivor to the
uri form `spotify:track:<id>`. -/
def tracksToRemove (existing toRemove : List String) : List String :=
  (toRemove.filter (fun tid => existing.contains tid)).map
    (fun tid => "spotify:track:" ++ tid)

/-- `remove_tracks_from_playlist` (remove.py lines 52-74): select the uris
to remove; if none, report and return without any removal call; otherwise
remove in batches of 100, each batch call wrapped in `try/except`. -/
def remove_tracks_from_playlist (removeCall : List String → Except String Unit)
    (existing toRemove : List String) : Nat × List String :=
  let ts := tracksToRemove existing toRemove
  if ts.isEmpty then (0, [])
  else removeTracksBatchesGo removeCall (batches ts 100) 0

/-- Python `str.lower` restricted to ASCII: map `Char.toLower` over the
characters. -/
def lowerStr (s : String) : String :=
  String.mk (s.data.map Char.toLower)

/-- Occurrence of `sub` as a contiguous run inside a character list: Python
`sub in s` for strings.  True for the empty `sub`. -/
def subList (sub : List Char) : List Char → Bool
  | [] => sub.isEmpty
  | c :: rest => sub.isPrefixOf (c :: rest) || subList sub rest

/-- Python `sub in s` on strings: substring containment. -/
def hasSubstr (s sub : String) : Bool :=
  subList sub.data s.data

/-- The fields of a track record consulted by `should_exclude_track`:
`track['name']`, `track['album']['name']`, `track['album'].get('label')`
(absent modelled as `none`), and the artist names. -/
structure Track where
  name : String
  albumName : String
  albumLabel : Option String
  artists : List String
  deriving DecidableEq, Repr

/-- Python `" ".join(l)`: the elements interleaved with single spaces. -/
def joinSpace : List String → String
  | [] => ""
  | [s] => s
  | s :: rest => s ++ " " ++ joinSpace rest

/-- `SpotifyPlaylistManager.should_exclude_track` (spotify.py lines 69-81):
lowercase the track name, the album name, each artist name (then join with
spaces) and the record label (defaulting to the empty string), and test
whether the keyword occurs as a substring of any of the four. -/
def should_exclude_track (track : Track) (keyword : String) : Bool :=
  let track_name := lowerStr track.name
  let album_name := lowerStr track.albumName
  let artist_names := joinSpace (track.artists.map (fun a => lowerStr a))
  let record_label := lowerStr (track.albumLabel.getD "")
  [track_name, album_name, artist_names, record_label].any
    (fun field => hasSubstr field keyword)

/-- Modelled from the spec's words ("case-insensitive substring test"): the
keyword occurs in the field when both are lowercased. -/
def keywordMatchesCI (keyword field : String) : Bool :=
  hasSubstr (lowerStr field) (lowerStr keyword)

/-- Modelled from the spec's words: exclusion predicate as a
case-insensitive keyword match across track name, album name, concatenated
artist names, and record-label field. -/
def shouldExcludeSpec (track : Track) (keyword : String) : Bool :=
  keywordMatchesCI keyword track.name ||
  keywordMatchesCI keyword track.albumName ||
  keywordMatchesCI keyword (joinSpace track.artists) ||
  keywordMatchesCI keyword (track.albumLabel.getD "")

/-- Python `s.split(sep)[-1]` for a non-empty, non-self-overlapping `sep`
(the source uses `':'` and `'playlist/'`): the suffix after the last
occurrence of `sep`, or the whole list when `sep` does not occur. -/
def afterLast (sep : List Char) : List Char → List Char
  | [] => []
  | c :: rest =>
    if subList sep rest then afterLast sep rest
    else if sep.isPrefixOf (c :: rest) then (c :: rest).drop sep.length
    else c :: rest

/-- Python `s.split(sep)[0]`: the longest strict preamble before the first
occurrence of `sep`, or the whole list when `sep` does not occur. -/
def beforeFirst (sep : List Char) : List Char → List Char
  | [] => []
  | c :: rest => if sep.isPrefixOf (c :: rest) then [] else c :: beforeFirst sep rest

/-- Python `s.strip()` restricted to ASCII whitespace. -/
def pyStrip (s : String) : String :=
  String.mk (((s.data.dropWhile Char.isWhitespace).reverse.dropWhile
    Char.isWhitespace).reverse)

/-- `extract_playlist_id` (analyzer.py lines 192-227).  The falsy check on
the input, the `spotify:playlist:` prefix branch returning
`url.split(':')[-1]`, the `open.spotify.com` containment branch returning
`url.split('playlist/')[-1].split('?')[0]` (raising on an empty result),
the bare 22-character branch, and the final descriptive rejection. -/
def extract_playlist_id (url : String) : Except String String :=
  if url = "" then
    .error "Please provide a Spotify playlist URL"
  else if "spotify:playlist:".data.isPrefixOf url.data then
    .ok (String.mk (afterLast [':'] url.data))
  else if hasSubstr url "open.spotify.com" then
    let playlist_id := String.mk (beforeFirst ['?'] (afterLast "playlist/".data url.data))
    if playlist_id = "" then .error "Invalid Spotify playlist URL format"
    else .ok playlist_id
  else if (pyStrip url).length = 22 then
    .ok (pyStrip url)
  else
    .error "Invalid playlist URL format. Please provide either: a Spotify URL (https://open.spotify.com/playlist/...), a Spotify URI (spotify:playlist:...), or a playlist ID (22 characters)"

/-- `_process_track_with_retry` (spotify.py lines 95-112): fetch the track
through the retry wrapper (`ops track_id` gives the outcome of each fetch
attempt); on a successful fetch return the track id unless the exclusion
predicate fires; on exhaustion or a non-rate-limit failure return `None`. -/
def process_track (ops : String → Nat → Outcome Track) (exclude_keyword : String)
    (track_id : String) : Option String :=
  match (retryRun (ops track_id) 3).1 with
  | some t => if should_exclude_track t exclude_keyword then none else some track_id
  | none => none

/-- `filter_tracks` (spotify.py lines 114-131): walk the ids in order and
append the result of `_process_track_with_retry` whenever it is truthy
(a non-`None`, non-empty string, per the walrus `if` test). -/
def filter_tracks (ops : String → Nat → Outcome Track) (exclude_keyword : String) :
    List String → List String
  | [] => []
  | tid :: rest =>
    match process_track ops exclude_keyword tid with
    | some s =>
      if s.length = 0 then filter_tracks ops exclude_keyword rest
      else s :: filter_tracks ops exclude_keyword rest
    | none => filter_tracks ops exclude_keyword rest

/-! Helper lemmas shared by the claim theorems. -/

theorem ceilDiv_of_le {d ps : Nat} (h0 : 0 < d) (h : d ≤ ps) : ceilDiv d ps = 1 := by
  unfold ceilDiv
  exact Nat.div_eq_of_lt_le (by omega) (by omega)

theorem ceilDiv_step {d ps : Nat} (hps : 0 < ps) (h : ps ≤ d) :
    ceilDiv d ps = ceilDiv (d - ps) ps + 1 := by
  unfold ceilDiv
  have hrw : d + ps - 1 = d - ps + ps - 1 + ps := by omega
  rw [hrw, Nat.add_div_right _ hps]

/-- C1 helper: the first non-429 outcome abandons the loop after that one
invocation, regardless of the remaining budget. -/
theorem retryGo_failure {α : Type} (op : Nat → Outcome α) (attempt remaining : Nat)
    (h : op attempt = .apiError ∨ op attempt = .otherError) :
    retryGo op attempt (remaining + 1) = (none, [], 1) := by
  rcases h with h | h <;> simp [retryGo, h]

/-- C10 helper: `_process_track_with_retry` either returns nothing or the
very track id it was given. -/
theorem process_track_cases (ops : String → Nat → Outcome Track) (kw tid : String) :
    process_track ops kw tid = none ∨ process_track ops kw tid = some tid := by
  unfold process_track
  cases hr : (retryRun (ops tid) 3).1 with
  | none => exact Or.inl rfl
  | some t =>
    by_cases he : should_exclude_track t kw = true
    · left; simp [he]
    · right; simp [he]

/-- C1: for a wrapped operation that fails rate-limited exactly `k` times
and then succeeds, the retry wrapper with bound 3 returns the operation's
result after exactly `k` sleeps, each being the server-suggested duration
or the default `RATE_LIMIT_DELAY = 1` when no suggestion is present, when
`k < 3`; and gives up with no result after exactly 3 invocations when
`k ≥ 3`. -/
theorem retry_wrapper_rate_limited_then_success {α : Type} (op : Nat → Outcome α)
    (ra : Nat → Option Nat) (k : Nat) (v : α)
    (hfail : ∀ i, i < k → op i = .rateLimited (ra i))
    (hsucc : op k = .success v) :
    (k < 3 → retryRun op 3 =
      (some v, (List.range k).map (fun i => (ra i).getD RATE_LIMIT_DELAY), k + 1)) ∧
    (3 ≤ k → retryRun op 3 =
      (none, (List.range 3).map (fun i => (ra i).getD RATE_LIMIT_DELAY), 3)) := by
  constructor
  · intro hk
    interval_cases k
    · simp [retryRun, retryGo, hsucc]
    · simp [retryRun, retryGo, hfail 0 (by omega), hsucc, List.range_succ]
    · simp [retryRun, retryGo, hfail 0 (by omega), hfail 1 (by omega), hsucc,
        List.range_succ]
  · intro hk
    simp [retryRun, retryGo, hfail 0 (by omega), hfail 1 (by omega),
      hfail 2 (by omega), List.range_succ]

/-- Witness for C1 at a concrete operation: rate limited twice with a
suggested wait of 5 seconds, then succeeding with 42 — two sleeps of 5,
three invocations. -/
theorem retry_wrapper_rate_limited_then_success_witness :
    retryRun (fun i => if i < 2 then Outcome.rateLimited (some 5) else Outcome.success 42) 3 =
      (some 42, [5, 5], 3) := by
  have h := (retry_wrapper_rate_limited_then_success
      (fun i => if i < 2 then Outcome.rateLimited (some 5) else Outcome.success 42)
      (fun _ => some 5) 2 42
      (fun i hi => by interval_cases i <;> rfl) (by rfl)).1 (by omega)
  simpa using h

/-- C2 counterexample: in `remove_duplicate_tracks` (clean.py lines 72-75)
the removal calls have no enclosing `try/except`; with 101 duplicate uris
(two batches of at most 100) and a removal call failing with a
non-rate-limit error, only 1 of the 2 batches is ever attempted — the
failure aborts the enclosing batch loop instead of being logged and
skipped. -/
theorem clean_removal_batch_failure_aborts :
    (batches (List.replicate 101 "u") 100).length = 2 ∧
    cleanRemoveBatchesGo (fun _ => Except.error "err")
      (batches (List.replicate 101 "u") 100) 0 = (1, some "err") ∧
    (cleanRemoveBatchesGo (fun _ => Except.error "err")
      (batches (List.replicate 101 "u") 100) 0).1 ≠
      (batches (List.replicate 101 "u") 100).length := by
  refine ⟨rfl, rfl, by decide⟩

/-- C2 amended: the retry wrapper abandons a non-rate-limited failure
immediately, after a single invocation; the batch-removal loop of
remove.py attempts every batch regardless of failures; but the
batch-removal loop of clean.py stops at the first failing batch and the
error propagates out of the loop (it is caught only at the outer run
boundary in `main`). -/
theorem retry_and_batch_error_handling_amended :
    (∀ (α : Type) (op : Nat → Outcome α) (R : Nat), 0 < R →
      (op 0 = .apiError ∨ op 0 = .otherError) → retryRun op R = (none, [], 1)) ∧
    (∀ (removeCall : List String → Except String Unit) (bs : List (List String)) (n : Nat),
      (removeTracksBatchesGo removeCall bs n).1 = n + bs.length) ∧
    (∀ (removeCall : List String → Except String Unit) (b : List String)
      (rest : List (List String)) (e : String), removeCall b = .error e →
      cleanRemoveBatchesGo removeCall (b :: rest) 0 = (1, some e)) := by
  refine ⟨?_, ?_, ?_⟩
  · intro α op R hR h
    obtain ⟨R', rfl⟩ : ∃ R', R = R' + 1 := ⟨R - 1, by omega⟩
    exact retryGo_failure op 0 R' h
  · intro removeCall bs
    induction bs with
    | nil => intro n; simp [removeTracksBatchesGo]
    | cons b rest ih =>
      intro n
      cases hb : removeCall b with
      | ok u => simp [removeTracksBatchesGo, hb, ih]; omega
      | error e => simp [removeTracksBatchesGo, hb, ih]; omega
  · intro removeCall b rest e he
    simp [cleanRemoveBatchesGo, he]

/-- Witness for the C2 amended theorem at concrete inputs: an immediately
failing non-429 operation makes one attempt; the remove.py loop attempts
both of two batches even though every call fails; the clean.py loop stops
after the first of two batches. -/
theorem retry_and_batch_error_handling_amended_witness :
    retryRun (fun _ => (Outcome.apiError : Outcome Nat)) 3 = (none, [], 1) ∧
    (removeTracksBatchesGo (fun _ => Except.error "err") [["a"], ["b"]] 0).1 = 0 + 2 ∧
    cleanRemoveBatchesGo (fun _ => Except.error "err") [["a"], ["b"]] 0 = (1, some "err") :=
  ⟨retry_and_batch_error_handling_amended.1 Nat _ 3 (by omega) (Or.inl rfl),
   retry_and_batch_error_handling_amended.2.1 _ [["a"], ["b"]] 0,
   retry_and_batch_error_handling_amended.2.2 _ ["a"] [["b"]] "err" rfl⟩

/-- C10: `filter_tracks` returns an order-preserving subsequence of its
input id list — every returned id occurs in the input, relative order is
preserved, and no id is introduced or duplicated beyond its occurrences. -/
theorem filter_tracks_sublist (ops : String → Nat → Outcome Track)
    (kw : String) (ids : List String) :
    List.Sublist (filter_tracks ops kw ids) ids := by
  induction ids with
  | nil => simp [filter_tracks]
  | cons tid rest ih =>
    rcases process_track_cases ops kw tid with h | h
    · simpa [filter_tracks, h] using ih.cons tid
    · by_cases hz : tid.length = 0
      · simpa [filter_tracks, h, hz] using ih.cons tid
      · simpa [filter_tracks, h, hz] using ih.cons₂ tid

/-- Pagination helper: length of a fetched page of the fake source. -/
theorem fetchPage_length {α : Type} (tracks : List α) (ps offset : Nat) :
    (fetchPage tracks ps offset).length = min ps (tracks.length - offset) := by
  simp [fetchPage]

/-- Pagination helper (analyzer loop): starting strictly inside the
collection with enough fuel, the loop returns the remaining elements in
order and makes one fetch per `ps`-sized page of the remainder. -/
theorem analyzerPaginateGo_spec {α : Type} (tracks : List α) (ps : Nat) (hps : 0 < ps) :
    ∀ (fuel offset : Nat) (acc : List α) (calls : Nat),
      offset < tracks.length →
      tracks.length - offset ≤ fuel * ps →
      analyzerPaginateGo tracks ps fuel offset acc calls =
        some (acc ++ tracks.drop offset, calls + ceilDiv (tracks.length - offset) ps) := by
  intro fuel
  induction fuel with
  | zero =>
    intro offset acc calls hlt hfuel
    simp only [Nat.zero_mul, Nat.le_zero] at hfuel
    omega
  | succ fuel ih =>
    intro offset acc calls hlt hfuel
    have hitems := fetchPage_length tracks ps offset
    have hpos : 0 < (fetchPage tracks ps offset).length := by rw [hitems]; omega
    have hne : (fetchPage tracks ps offset).isEmpty = false :=
      List.isEmpty_eq_false.mpr (List.length_pos.mp hpos)
    by_cases hstop : tracks.length ≤ offset + (fetchPage tracks ps offset).length
    · have hdle : tracks.length - offset ≤ ps := by rw [hitems] at hstop; omega
      have hfull : fetchPage tracks ps offset = tracks.drop offset :=
        List.take_of_length_le (by rw [List.length_drop]; exact hdle)
      have hceil : ceilDiv (tracks.length - offset) ps = 1 := ceilDiv_of_le (by omega) hdle
      have h1 : ¬tracks.length ≤ offset := by omega
      have h2 : tracks.length ≤ offset + (tracks.length - offset) := by omega
      simp [analyzerPaginateGo, hne, hstop, hfull, hceil, h1, h2]
    · have hips : (fetchPage tracks ps offset).length = ps := by rw [hitems]; omega
      have hple : ps ≤ tracks.length - offset := by omega
      have hstop2 : ¬tracks.length ≤ offset + ps := by omega
      have hrec := ih (offset + ps) (acc ++ fetchPage tracks ps offset) (calls + 1)
        (by omega) (by rw [Nat.succ_mul] at hfuel; omega)
      rw [show analyzerPaginateGo tracks ps (fuel + 1) offset acc calls =
            analyzerPaginateGo tracks ps fuel (offset + ps)
              (acc ++ fetchPage tracks ps offset) (calls + 1) from by
        simp [analyzerPaginateGo, hne, hstop, hstop2, hips]]
      rw [hrec]
      simp only [Option.some.injEq, Prod.mk.injEq]
      constructor
      · rw [List.append_assoc]
        congr 1
        rw [show tracks.drop (offset + ps) = (tracks.drop offset).drop ps from
          (List.drop_drop ps offset tracks).symm]
        exact List.take_append_drop ps (tracks.drop offset)
      · rw [show tracks.length - (offset + ps) = tracks.length - offset - ps from by omega,
          ceilDiv_step hps hple]
        generalize ceilDiv (tracks.length - offset - ps) ps = x
        omega

/-- Pagination helper: the analyzer loop on the full fake source returns
all elements; it makes one fetch on the empty source, else one per page. -/
theorem analyzerPaginate_spec {α : Type} (tracks : List α) (ps : Nat) (hps : 0 < ps) :
    analyzerPaginate tracks ps (tracks.length + 1) =
      some (tracks, if tracks.length = 0 then 1 else ceilDiv tracks.length ps) := by
  rcases Nat.eq_zero_or_pos tracks.length with h0 | hpos
  · have hnil : tracks = [] := List.length_eq_zero.mp h0
    subst hnil
    simp [analyzerPaginate, analyzerPaginateGo, fetchPage]
  · rw [if_neg (by omega)]
    have hm : tracks.length ≤ tracks.length * ps := by
      calc tracks.length = tracks.length * 1 := by omega
        _ ≤ tracks.length * ps := Nat.mul_le_mul_left _ hps
    have h := analyzerPaginateGo_spec tracks ps hps (tracks.length + 1) 0 [] 0 (by omega)
      (by rw [Nat.succ_mul]; omega)
    simpa [analyzerPaginate] using h

/-- Pagination helper (clean.py/remove.py loop): with enough fuel the loop
returns the remaining elements and makes exactly one more fetch than the
number of full `ps`-sized pages of the remainder. -/
theorem fixedPaginateGo_spec {α : Type} (tracks : List α) (ps : Nat) (hps : 0 < ps) :
    ∀ (fuel offset : Nat) (acc : List α) (calls : Nat),
      (tracks.length - offset) / ps < fuel →
      fixedPaginateGo tracks ps fuel offset acc calls =
        some (acc ++ tracks.drop offset, calls + (tracks.length - offset) / ps + 1) := by
  intro fuel
  induction fuel with
  | zero => intro offset acc calls h; exact absurd h (Nat.not_lt_zero _)
  | succ fuel ih =>
    intro offset acc calls hfuel
    have hitems := fetchPage_length tracks ps offset
    by_cases hshort : (fetchPage tracks ps offset).length < ps
    · have hdlt : tracks.length - offset < ps := by rw [hitems] at hshort; omega
      have hfull : fetchPage tracks ps offset = tracks.drop offset :=
        List.take_of_length_le (by rw [List.length_drop]; omega)
      have hdiv : (tracks.length - offset) / ps = 0 := Nat.div_eq_of_lt hdlt
      have hnot : ¬ps ≤ tracks.length - offset := by omega
      simp [fixedPaginateGo, hshort, hfull, hdiv, hdlt, hnot]
    · have hips : (fetchPage tracks ps offset).length = ps := by rw [hitems]; omega
      have hple : ps ≤ tracks.length - offset := by rw [hitems] at hshort; omega
      have hdiv : (tracks.length - offset) / ps = (tracks.length - (offset + ps)) / ps + 1 := by
        rw [show tracks.length - offset = tracks.length - (offset + ps) + ps from by omega,
          Nat.add_div_right _ hps]
      have hrec := ih (offset + ps) (acc ++ fetchPage tracks ps offset) (calls + 1)
        (by rw [hdiv] at hfuel; omega)
      rw [show fixedPaginateGo tracks ps (fuel + 1) offset acc calls =
            fixedPaginateGo tracks ps fuel (offset + ps)
              (acc ++ fetchPage tracks ps offset) (calls + 1) from by
        simp [fixedPaginateGo, hshort, hips]]
      rw [hrec]
      simp only [Option.some.injEq, Prod.mk.injEq]
      constructor
      · rw [List.append_assoc]
        congr 1
        rw [show tracks.drop (offset + ps) = (tracks.drop offset).drop ps from
          (List.drop_drop ps offset tracks).symm]
        exact List.take_append_drop ps (tracks.drop offset)
      · rw [hdiv]
        generalize (tracks.length - (offset + ps)) / ps = x
        omega

/-- Pagination helper: the clean.py/remove.py loop on the full fake source
returns all elements and makes exactly `T / ps + 1` fetch calls. -/
theorem fixedPaginate_spec {α : Type} (tracks : List α) (ps : Nat) (hps : 0 < ps) :
    fixedPaginate tracks ps (tracks.length + 1) =
      some (tracks, tracks.length / ps + 1) := by
  have h := fixedPaginateGo_spec tracks ps hps (tracks.length + 1) 0 [] 0
    (by simpa using Nat.lt_succ_of_le (Nat.div_le_self tracks.length ps))
  simpa [fixedPaginate] using h

/-- C3 counterexample: on a fake source with zero elements the claim
predicts at most ceil(0 / pageSize) = 0 fetch calls, but the analyzer
paginator performs 1; and on one element with page size 1 the claim
predicts at most ceil(1/1) = 1 call, but the fixed-size paginator of
clean.py/remove.py performs 2. -/
theorem paginator_call_count_counterexample :
    analyzerPaginate ([] : List Nat) 50 1 = some ([], 1) ∧ ¬(1 ≤ ceilDiv 0 50) ∧
    fixedPaginate [0] 1 2 = some ([0], 2) ∧ ¬(2 ≤ ceilDiv 1 1) :=
  ⟨rfl, by decide, rfl, by decide⟩

/-- C3 amended: for every fake source with T elements both paginators
return exactly the T elements in original order; the analyzer paginator
makes exactly ceil(T / pageSize) fetch calls when T > 0 and exactly 1 call
when T = 0, while the fixed-page-size paginator of clean.py/remove.py
makes exactly T / pageSize + 1 calls — that is ceil(T / pageSize) when
pageSize does not divide T, and one extra call when it does (T = 0
included). -/
theorem paginator_elements_and_call_counts {α : Type} (tracks : List α) (ps : Nat)
    (hps : 0 < ps) :
    analyzerPaginate tracks ps (tracks.length + 1) =
      some (tracks, if tracks.length = 0 then 1 else ceilDiv tracks.length ps) ∧
    fixedPaginate tracks ps (tracks.length + 1) =
      some (tracks, tracks.length / ps + 1) :=
  ⟨analyzerPaginate_spec tracks ps hps, fixedPaginate_spec tracks ps hps⟩

/-- Witness for the C3 amended theorem on a three-element source with page
size 2: both paginators return the elements in order; each makes 2 calls,
as ceil(3/2) = 2 = 3/2 + 1. -/
theorem paginator_elements_and_call_counts_witness :
    analyzerPaginate [1, 2, 3] 2 ([1, 2, 3].length + 1) = some ([1, 2, 3], 2) ∧
    fixedPaginate [1, 2, 3] 2 ([1, 2, 3].length + 1) = some ([1, 2, 3], 2) := by
  obtain ⟨h1, h2⟩ := paginator_elements_and_call_counts [1, 2, 3] 2 (by omega)
  exact ⟨by rw [h1]; rfl, by rw [h2]; rfl⟩

/-- C4: with a positive page size and fuel T + 1 both pagination loops
reach a break rather than exhausting their fuel: the analyzer loop stops
on an empty page or when the accumulated offset reaches the reported
total, the fixed-size loop when a page is shorter than the page size; in
particular each stops after a single call on a source whose first page is
empty. -/
theorem pagination_terminates {α : Type} (tracks : List α) (ps : Nat) (hps : 0 < ps) :
    (∃ r, analyzerPaginate tracks ps (tracks.length + 1) = some r) ∧
    (∃ r, fixedPaginate tracks ps (tracks.length + 1) = some r) ∧
    analyzerPaginate ([] : List α) ps 1 = some ([], 1) ∧
    fixedPaginate ([] : List α) ps 1 = some ([], 1) := by
  refine ⟨⟨_, analyzerPaginate_spec tracks ps hps⟩,
    ⟨_, fixedPaginate_spec tracks ps hps⟩, ?_, ?_⟩
  · simp [analyzerPaginate, analyzerPaginateGo, fetchPage]
  · simp [fixedPaginate, fixedPaginateGo, fetchPage, hps]

/-- Witness for C4 on a one-element source with page size 3 (and the empty
source for the empty-first-page conjuncts). -/
theorem pagination_terminates_witness :
    (∃ r, analyzerPaginate [5] 3 ([5].length + 1) = some r) ∧
    (∃ r, fixedPaginate [5] 3 ([5].length + 1) = some r) ∧
    analyzerPaginate ([] : List Nat) 3 1 = some ([], 1) ∧
    fixedPaginate ([] : List Nat) 3 1 = some ([], 1) :=
  pagination_terminates [5] 3 (by omega)

/-- Batcher helper: each emitted batch is a `take B`, hence never longer
than `B`, for any fuel. -/
theorem batchesGo_length_le {α : Type} (B : Nat) :
    ∀ (fuel : Nat) (l : List α), ∀ c ∈ batchesGo B fuel l, c.length ≤ B := by
  intro fuel
  induction fuel with
  | zero => intro l c hc; cases l <;> simp [batchesGo] at hc
  | succ fuel ih =>
    intro l c hc
    cases l with
    | nil => simp [batchesGo] at hc
    | cons x xs =>
      simp only [batchesGo, List.mem_cons] at hc
      rcases hc with rfl | hc
      · rw [List.length_take]; omega
      · exact ih _ c hc

/-- Batcher helper: with sufficient fuel the emitted batches concatenate
back to the input list. -/
theorem batchesGo_flatten {α : Type} (B : Nat) (hB : 0 < B) :
    ∀ (fuel : Nat) (l : List α), l.length ≤ fuel → (batchesGo B fuel l).flatten = l := by
  intro fuel
  induction fuel with
  | zero =>
    intro l hl
    have hnil : l = [] := List.length_eq_zero.mp (by omega)
    subst hnil; rfl
  | succ fuel ih =>
    intro l hl
    cases l with
    | nil => rfl
    | cons x xs =>
      simp only [batchesGo, List.flatten_cons]
      rw [ih ((x :: xs).drop B) (by rw [List.length_drop]; simp at hl ⊢; omega)]
      exact List.take_append_drop B (x :: xs)

/-- Batcher helper: every batch except possibly the final one has length
exactly `B` (with sufficient fuel). -/
theorem batchesGo_dropLast_length {α : Type} (B : Nat) (hB : 0 < B) :
    ∀ (fuel : Nat) (l : List α), l.length ≤ fuel →
      ∀ c ∈ (batchesGo B fuel l).dropLast, c.length = B := by
  intro fuel
  induction fuel with
  | zero =>
    intro l hl c hc
    have hnil : l = [] := List.length_eq_zero.mp (by omega)
    subst hnil; simp [batchesGo] at hc
  | succ fuel ih =>
    intro l hl c hc
    cases l with
    | nil => simp [batchesGo] at hc
    | cons x xs =>
      simp only [batchesGo] at hc
      cases hrest : batchesGo B fuel ((x :: xs).drop B) with
      | nil => rw [hrest, List.dropLast_single] at hc; simp at hc
      | cons y ys =>
        rw [hrest, List.dropLast_cons₂] at hc
        rcases List.mem_cons.mp hc with rfl | hc2
        · have hne : (x :: xs).drop B ≠ [] := by
            intro hnil
            rw [hnil] at hrest
            simp [batchesGo] at hrest
          have hBlt : B < (x :: xs).length := by
            by_contra hge
            push_neg at hge
            exact hne (List.drop_eq_nil_of_le hge)
          rw [List.length_take]; omega
        · rw [← hrest] at hc2
          exact ih ((x :: xs).drop B)
            (by rw [List.length_drop]; simp at hl ⊢; omega) c hc2

/-- C5: for every list and positive batch size the batcher's chunks
concatenate back to the input (contiguity, original order, exactly-once
coverage), each chunk is at most `B` long, and every chunk except possibly
the final one is exactly `B` long. -/
theorem batcher_partition {α : Type} (l : List α) (B : Nat) (hB : 0 < B) :
    (batches l B).flatten = l ∧
    (∀ c ∈ batches l B, c.length ≤ B) ∧
    (∀ c ∈ (batches l B).dropLast, c.length = B) :=
  ⟨batchesGo_flatten B hB l.length l le_rfl,
   fun c hc => batchesGo_length_le B l.length l c hc,
   fun c hc => batchesGo_dropLast_length B hB l.length l le_rfl c hc⟩

/-- Witness for C5: batches of size 2 of a five-element list. -/
theorem batcher_partition_witness :
    (batches [1, 2, 3, 4, 5] 2).flatten = [1, 2, 3, 4, 5] ∧
    (∀ c ∈ batches [1, 2, 3, 4, 5] 2, c.length ≤ 2) ∧
    (∀ c ∈ (batches [1, 2, 3, 4, 5] 2).dropLast, c.length = 2) :=
  batcher_partition [1, 2, 3, 4, 5] 2 (by omega)

/-- Dedup helper: membership test of a list extended on the right. -/
theorem contains_append_singleton (l : List String) (x a : String) :
    (l ++ [x]).contains a = (l.contains a || (a == x)) := by
  induction l with
  | nil =>
    rw [List.nil_append, List.contains_cons]
    show (a == x || false) = (false || a == x)
    rw [Bool.or_false, Bool.false_or]
  | cons y ys ih =>
    rw [List.cons_append, List.contains_cons, List.contains_cons, ih, Bool.or_assoc]

/-- Dedup helper: the code's scan (inserting only first occurrences into
`seen`) produces the same uri list as the spec's scan (which compares
against all prior ids), whenever `seen` and `prior` agree as sets. -/
theorem dedupGo_eq_specDupGo :
    ∀ (tracks : List (String × String)) (seen prior : List String),
      (∀ a, seen.contains a = prior.contains a) →
      dedupGo tracks seen = specDupGo tracks prior := by
  intro tracks
  induction tracks with
  | nil => intro seen prior h; rfl
  | cons t rest ih =>
    obtain ⟨tid, uri⟩ := t
    intro seen prior h
    rw [dedupGo, specDupGo, h tid]
    by_cases hc : prior.contains tid = true
    · rw [if_pos hc, if_pos hc]
      congr 1
      apply ih
      intro a
      rw [contains_append_singleton, h a]
      cases hax : a == tid
      · simp
      · have hae : a = tid := by simpa using hax
        subst hae
        rw [hc, Bool.true_or]
    · rw [if_neg hc, if_neg hc]
      apply ih
      intro a
      rw [List.contains_cons, contains_append_singleton, h a]
      cases hax : a == tid <;> simp

/-- C6: the duplicate scan of `remove_duplicate_tracks` collects exactly
the uris of every element whose id occurred at an earlier position, in
scan order (keeping the first occurrence of each id); when no duplicates
are found the workflow issues no removal call; and the five-element
example `[a, b, a, c, b]` yields exactly the uris of the second
occurrences of `a` and `b`. -/
theorem dedup_collects_subsequent_repeats :
    (∀ tracks, findDuplicates tracks = specDuplicates tracks) ∧
    (∀ (removeCall : List String → Except String Unit) tracks,
      findDuplicates tracks = [] → remove_duplicate_tracks removeCall tracks = (0, none)) ∧
    findDuplicates [("a", "ua1"), ("b", "ub1"), ("a", "ua2"), ("c", "uc1"), ("b", "ub2")] =
      ["ua2", "ub2"] := by
  refine ⟨?_, ?_, by decide⟩
  · intro tracks
    exact dedupGo_eq_specDupGo tracks [] [] (fun a => rfl)
  · intro removeCall tracks h
    simp [remove_duplicate_tracks, h]

/-- Witness for C6: a one-track playlist has no duplicates and the
workflow issues zero removal calls on it. -/
theorem dedup_collects_subsequent_repeats_witness :
    remove_duplicate_tracks (fun _ => Except.ok ()) [("x", "ux")] = (0, none) :=
  dedup_collects_subsequent_repeats.2.1 (fun _ => Except.ok ()) [("x", "ux")] rfl

/-- C7: remove-by-id selects exactly the requested ids that are members of
the current playlist id set (silently dropping absent ids), converting
each survivor to the uri form `spotify:track:<id>`; with existing
`{a, b, c}` and requested `[b, d]` only `b`'s uri is selected and `d` is
silently ignored. -/
theorem remove_by_id_selection :
    (∀ (existing toRemove : List String) (u : String),
      u ∈ tracksToRemove existing toRemove ↔
        ∃ tid, tid ∈ toRemove ∧ tid ∈ existing ∧ u = "spotify:track:" ++ tid) ∧
    tracksToRemove ["a", "b", "c"] ["b", "d"] = ["spotify:track:b"] := by
  constructor
  · intro existing toRemove u
    simp only [tracksToRemove, List.mem_map, List.mem_filter]
    constructor
    · rintro ⟨tid, ⟨htm, hcont⟩, rfl⟩
      exact ⟨tid, htm, by simpa using hcont, rfl⟩
    · rintro ⟨tid, htm, hmem, rfl⟩
      exact ⟨tid, ⟨htm, by simpa using hmem⟩, rfl⟩
  · decide

/-- Exclusion helper: lowercasing distributes over string append. -/
theorem lowerStr_append (a b : String) : lowerStr (a ++ b) = lowerStr a ++ lowerStr b := by
  apply String.ext
  simp [lowerStr, String.data_append]

/-- Exclusion helper: lowercasing each artist name and then joining with
spaces equals joining first and lowercasing the result. -/
theorem lowerStr_joinSpace (l : List String) :
    joinSpace (l.map lowerStr) = lowerStr (joinSpace l) := by
  induction l with
  | nil => rfl
  | cons s rest ih =>
    cases rest with
    | nil => rfl
    | cons t ts =>
      simp only [List.map_cons, joinSpace]
      rw [← List.map_cons, ih, lowerStr_append, lowerStr_append,
        show lowerStr " " = " " from rfl]

/-- C8 counterexample: `should_exclude_track` lowercases the track fields
but not the keyword, so the test is not case-insensitive in the keyword:
the keyword `"Lofi"` does not exclude a track whose album name is
`"Lofi Beats"`, although the case-insensitive substring test required by
the claim matches there. -/
theorem exclusion_keyword_case_counterexample :
    should_exclude_track ⟨"x", "Lofi Beats", none, []⟩ "Lofi" = false ∧
    shouldExcludeSpec ⟨"x", "Lofi Beats", none, []⟩ "Lofi" = true ∧
    should_exclude_track ⟨"x", "Lofi Beats", none, []⟩ "Lofi" ≠
      shouldExcludeSpec ⟨"x", "Lofi Beats", none, []⟩ "Lofi" :=
  ⟨by decide, by decide, by decide⟩

/-- C8 amended: the exclusion predicate holds iff the keyword occurs
verbatim as a substring of the lowercased track name, lowercased album
name, space-joined lowercased artist names, or lowercased record label —
case-insensitive in the track's fields but case-sensitive in the keyword.
For an all-lowercase keyword this coincides with the fully
case-insensitive test, and the spec's lofi examples hold: a track whose
album name contains "Lofi Beats" is excluded for keyword "lofi", and a
track with no matching field is kept. -/
theorem exclusion_predicate_amended (track : Track) (keyword : String) :
    (should_exclude_track track keyword = true ↔
      (hasSubstr (lowerStr track.name) keyword = true ∨
       hasSubstr (lowerStr track.albumName) keyword = true ∨
       hasSubstr (joinSpace (track.artists.map (fun a => lowerStr a))) keyword = true ∨
       hasSubstr (lowerStr (track.albumLabel.getD "")) keyword = true)) ∧
    (lowerStr keyword = keyword →
      should_exclude_track track keyword = shouldExcludeSpec track keyword) ∧
    should_exclude_track ⟨"Song", "Best Lofi Beats", some "Label", ["Someone"]⟩ "lofi" = true ∧
    should_exclude_track ⟨"Song", "Album", some "Label", ["Someone"]⟩ "lofi" = false := by
  refine ⟨?_, ?_, by decide, by decide⟩
  · simp [should_exclude_track, or_assoc]
  · intro hkw
    unfold should_exclude_track shouldExcludeSpec keywordMatchesCI
    rw [hkw, show (fun a => lowerStr a) = lowerStr from rfl, lowerStr_joinSpace]
    simp [Bool.or_assoc]

/-- Witness for the C8 amended theorem: for the all-lowercase keyword
"lofi" the code predicate agrees with the case-insensitive spec predicate
on a concrete track. -/
theorem exclusion_predicate_amended_witness :
    should_exclude_track ⟨"Song", "Best Lofi Beats", some "Label", ["Someone"]⟩ "lofi" =
      shouldExcludeSpec ⟨"Song", "Best Lofi Beats", some "Label", ["Someone"]⟩ "lofi" :=
  (exclusion_predicate_amended ⟨"Song", "Best Lofi Beats", some "Label", ["Someone"]⟩
    "lofi").2.1 (by decide)

/-- C9: evaluation of `extract_playlist_id` — the three documented forms
are accepted with the embedded identifier extracted (any query suffix
stripped) and a bare 21-character string is rejected with the descriptive
format error; but a URL containing `open.spotify.com` without a
`playlist/` segment is also accepted, returning the entire URL as the
"identifier", where both the claim and the function's own documentation
and rejection message require a format error. -/
theorem extract_playlist_id_eval :
    extract_playlist_id "https://open.spotify.com/playlist/37i9dQZF1DXcBWIGoYBM5M?si=x" =
      Except.ok "37i9dQZF1DXcBWIGoYBM5M" ∧
    extract_playlist_id "spotify:playlist:37i9dQZF1DXcBWIGoYBM5M" =
      Except.ok "37i9dQZF1DXcBWIGoYBM5M" ∧
    extract_playlist_id "37i9dQZF1DXcBWIGoYBM5M" = Except.ok "37i9dQZF1DXcBWIGoYBM5M" ∧
    extract_playlist_id "123456789012345678901" =
      Except.error "Invalid playlist URL format. Please provide either: a Spotify URL (https://open.spotify.com/playlist/...), a Spotify URI (spotify:playlist:...), or a playlist ID (22 characters)" ∧
    extract_playlist_id "https://open.spotify.com/album/4aawyAB9vmqN3uQ7FjRGTy" =
      Except.ok "https://open.spotify.com/album/4aawyAB9vmqN3uQ7FjRGTy" :=
  ⟨rfl, rfl, rfl, rfl, rfl⟩

end SpotifyPy
